import Mathlib

/-!
Verification of the invoicer repository (a calendar-based invoicing CLI)
against its natural-language specification.

Shallow embedding conventions:
* Python floats that carry hours/amounts are modelled as exact rationals (ℚ);
  the spec's arithmetic claims are about exact identities, and every cited
  concrete value is exactly representable.
* Timestamps are modelled in one fixed timezone as a calendar day number
  (ℤ) plus a second-of-day offset (ℤ); `SQLite DATE(ts)` is the day
  component, and `ORDER BY start_time` is the lexicographic order on
  (day, second).  Sub-second precision plays no role in any claim.
* SQLite tables are Lean lists of row structures; `AUTOINCREMENT` surrogate
  keys are modelled by a monotone counter carried in the database state.
* Python exceptions and `sys.exit` are modelled with `Except` / explicit
  result variants, so an error is a first-class value the caller can match.
* Python `str` values are processed on their character lists
  (`String.toList`), with `split`, `strip` and `int()` modelled explicitly
  (ASCII decimal; exotic `int()` inputs such as underscore separators or
  non-ASCII digits are outside the model).
-/

/-! ### Character and string helpers (Python `str.split`, `str.strip`, `int`) -/

/-- Whitespace as stripped by Python `str.strip()` (ASCII part: space and
the control characters 9-13). -/
def isSpaceC (c : Char) : Bool := decide (c.toNat = 32 ∨ (9 ≤ c.toNat ∧ c.toNat ≤ 13))

/-- ASCII decimal digit test. -/
def isDigitC (c : Char) : Bool := decide (48 ≤ c.toNat ∧ c.toNat ≤ 57)

/-- Python `s.split(sep)` for a one-character separator: splits on every
occurrence, keeping empty pieces, and returns `[""]` on empty input. -/
def splitOnChar (sep : Char) : List Char → List (List Char)
  | [] => [[]]
  | c :: cs =>
    match splitOnChar sep cs, decide (c = sep) with
    | r, true => [] :: r
    | [], false => [[c]]
    | g :: gs, false => (c :: g) :: gs

/-- Python `s.strip()`. -/
def listTrim (cs : List Char) : List Char :=
  ((cs.dropWhile isSpaceC).reverse.dropWhile isSpaceC).reverse

/-- Value of a nonempty all-digit character list; `none` otherwise. -/
def digitsVal (cs : List Char) : Option ℕ :=
  match cs with
  | [] => none
  | _ => cs.foldl (fun acc c => acc.bind (fun n =>
      if isDigitC c then some (10 * n + (c.toNat - 48)) else none)) (some 0)

/-- Python `int(s)` on a string: strips whitespace, accepts an optional
sign followed by at least one decimal digit, and raises (here: `none`)
otherwise. -/
def pyInt (cs : List Char) : Option ℤ :=
  match listTrim cs with
  | '+' :: ds => (digitsVal ds).map (fun n => (n : ℤ))
  | '-' :: ds => (digitsVal ds).map (fun n => -(n : ℤ))
  | ds => (digitsVal ds).map (fun n => (n : ℤ))

/-- Python `range(a, b)` over the integers, by fuel. -/
def pyRangeAux (a : ℤ) : ℕ → List ℤ
  | 0 => []
  | k + 1 => a :: pyRangeAux (a + 1) k

/-- Python `range(a, b)` over the integers. -/
def pyRange (a b : ℤ) : List ℤ := pyRangeAux a (b - a).toNat

/-! ### Selection parsing (`main.parse_selection`, main.py lines 344-361) -/

/-- A selection token: a single index or an inclusive range `a-b`. -/
inductive SelTok where
  | single : ℤ → SelTok
  | rng : ℤ → ℤ → SelTok
deriving DecidableEq

/-- Tokenization of one comma-separated part of a selection string,
exactly as `parse_selection` treats it: strip, then if the part contains
a dash split it into exactly two `int()`-parseable pieces (a range),
otherwise parse the whole part with `int()` (a single index).  `none`
models the `ValueError` raised by `int()` or by tuple unpacking. -/
def tokenize (rawPart : List Char) : Option SelTok :=
  let p := listTrim rawPart
  if p.contains '-' then
    match splitOnChar '-' p with
    | [x, y] =>
      match pyInt x, pyInt y with
      | some a, some b => some (SelTok.rng a b)
      | _, _ => none
    | _ => none
  else
    (pyInt p).map SelTok.single

/-- Tokenization of a whole list of parts; `none` when any part fails. -/
def tokensOfParts : List (List Char) → Option (List SelTok)
  | [] => some []
  | p :: ps =>
    match tokenize p, tokensOfParts ps with
    | some t, some ts => some (t :: ts)
    | _, _ => none

/-- Tokenization of a whole selection string. -/
def tokensOf (s : String) : Option (List SelTok) :=
  tokensOfParts (splitOnChar ',' s.toList)

/-- Python `set.add` on a list modelling a set. -/
def pyInsert (x : ℤ) (l : List ℤ) : List ℤ := if x ∈ l then l else x :: l

/-- Processing of one token by `parse_selection`'s loop body: a single
index is added only when `1 <= num <= max_num`; a range `a-b` adds every
`i` in `range(a, min(b + 1, max_num + 1))`. -/
def applyTok (N : ℤ) (acc : List ℤ) : SelTok → List ℤ
  | SelTok.single n => if 1 ≤ n ∧ n ≤ N then pyInsert n acc else acc
  | SelTok.rng a b => (pyRange a (min (b + 1) (N + 1))).foldl (fun s i => pyInsert i s) acc

/-- The loop of `parse_selection` over the comma-separated parts, with the
accumulated selection set; raises (`Except.error`) at the first malformed
part, and finally returns `sorted(list(selected))`. -/
def parseSelAux (N : ℤ) : List (List Char) → List ℤ → Except String (List ℤ)
  | [], acc => Except.ok (List.insertionSort (· ≤ ·) acc)
  | p :: ps, acc =>
    match tokenize p with
    | none => Except.error "ValueError: invalid selection token"
    | some t => parseSelAux N ps (applyTok N acc t)

/-- `main.parse_selection(selection, max_num)`: split the selection string
on commas and process each part. -/
def parse_selection (selection : String) (max_num : ℤ) : Except String (List ℤ) :=
  parseSelAux max_num (splitOnChar ',' selection.toList) []

/-- Observer: the successful result of a selection parse, if any. -/
def okList : Except String (List ℤ) → Option (List ℤ)
  | Except.ok l => some l
  | Except.error _ => none

/-- Observer: whether a selection parse raised. -/
def parseFailed : Except String (List ℤ) → Bool
  | Except.ok _ => false
  | Except.error _ => true

/-! ### Declarative description of selection parsing (from the spec) -/

/-- The set of indices a single token contributes according to the spec:
a single index is kept only when inside `[1, N]`; an inclusive range
`a-b` contributes `[a, min b N]` (upper bound clamped to `N`, empty when
the upper bound falls below the lower bound). -/
def tokSet (N : ℤ) : SelTok → Finset ℤ
  | SelTok.single n => if 1 ≤ n ∧ n ≤ N then {n} else ∅
  | SelTok.rng a b => Finset.Icc a (min b N)

/-- The selected index set of a token list: the union of the tokens'
contributions (duplicates collapse by set semantics). -/
def specSelect (N : ℤ) (toks : List SelTok) : Finset ℤ :=
  toks.foldl (fun s t => s ∪ tokSet N t) ∅

/-- The smallest index a token can contribute (singles below 1 are
ignored, so only a range's lower bound matters). -/
def tokLB : SelTok → ℤ
  | SelTok.single _ => 1
  | SelTok.rng a _ => a

lemma pyInsert_toFinset (x : ℤ) (l : List ℤ) :
    (pyInsert x l).toFinset = insert x l.toFinset := by
  unfold pyInsert
  split
  · exact (Finset.insert_eq_self.mpr (List.mem_toFinset.mpr (by assumption))).symm
  · simp [List.toFinset_cons]

lemma pyInsert_nodup (x : ℤ) (l : List ℤ) (h : l.Nodup) : (pyInsert x l).Nodup := by
  unfold pyInsert
  split
  · exact h
  · exact List.nodup_cons.mpr ⟨by assumption, h⟩

lemma foldl_pyInsert_toFinset :
    ∀ (k : ℕ) (a : ℤ) (acc : List ℤ),
      ((pyRangeAux a k).foldl (fun s i => pyInsert i s) acc).toFinset =
        acc.toFinset ∪ Finset.Icc a (a + k - 1) := by
  intro k
  induction k with
  | zero =>
    intro a acc
    have : Finset.Icc a (a + (0 : ℕ) - 1) = ∅ := Finset.Icc_eq_empty (by omega)
    simp [pyRangeAux, this]
  | succ n ih =>
    intro a acc
    show ((pyRangeAux (a + 1) n).foldl (fun s i => pyInsert i s) (pyInsert a acc)).toFinset = _
    rw [ih (a + 1) (pyInsert a acc), pyInsert_toFinset]
    ext i
    simp only [Finset.mem_union, Finset.mem_insert, Finset.mem_Icc, List.mem_toFinset]
    constructor
    · rintro ((rfl | h) | ⟨h1, h2⟩)
      · right; omega
      · left; exact h
      · right; omega
    · rintro (h | ⟨h1, h2⟩)
      · left; right; exact h
      · by_cases hi : i = a
        · left; left; exact hi
        · right; omega

lemma foldl_pyInsert_nodup :
    ∀ (k : ℕ) (a : ℤ) (acc : List ℤ), acc.Nodup →
      ((pyRangeAux a k).foldl (fun s i => pyInsert i s) acc).Nodup := by
  intro k
  induction k with
  | zero => intro a acc h; simpa [pyRangeAux] using h
  | succ n ih => intro a acc h; exact ih (a + 1) (pyInsert a acc) (pyInsert_nodup a acc h)

lemma applyTok_toFinset (N : ℤ) (acc : List ℤ) (t : SelTok) :
    (applyTok N acc t).toFinset = acc.toFinset ∪ tokSet N t := by
  cases t with
  | single n =>
    show (if 1 ≤ n ∧ n ≤ N then pyInsert n acc else acc).toFinset =
      acc.toFinset ∪ (if 1 ≤ n ∧ n ≤ N then ({n} : Finset ℤ) else ∅)
    by_cases hn : 1 ≤ n ∧ n ≤ N
    · rw [if_pos hn, if_pos hn, pyInsert_toFinset]
      ext i; simp; tauto
    · rw [if_neg hn, if_neg hn]; simp
  | rng a b =>
    show ((pyRange a (min (b + 1) (N + 1))).foldl (fun s i => pyInsert i s) acc).toFinset = _
    unfold pyRange
    rw [foldl_pyInsert_toFinset]
    unfold tokSet
    have : Finset.Icc a (a + ((min (b + 1) (N + 1) - a).toNat : ℤ) - 1) =
        Finset.Icc a (min b N) := by
      ext i; simp only [Finset.mem_Icc]; omega
    rw [this]

lemma applyTok_nodup (N : ℤ) (acc : List ℤ) (t : SelTok) (h : acc.Nodup) :
    (applyTok N acc t).Nodup := by
  cases t with
  | single n =>
    show (if 1 ≤ n ∧ n ≤ N then pyInsert n acc else acc).Nodup
    split
    · exact pyInsert_nodup _ _ h
    · exact h
  | rng a b => exact foldl_pyInsert_nodup _ _ _ h

lemma mem_specSelect_aux (N : ℤ) :
    ∀ (toks : List SelTok) (init : Finset ℤ) (i : ℤ),
      i ∈ toks.foldl (fun s t => s ∪ tokSet N t) init ↔
        i ∈ init ∨ ∃ t ∈ toks, i ∈ tokSet N t := by
  intro toks
  induction toks with
  | nil => intro init i; simp [specSelect]
  | cons t ts ih =>
    intro init i
    show i ∈ ts.foldl (fun s t => s ∪ tokSet N t) (init ∪ tokSet N t) ↔ _
    rw [ih]
    simp only [Finset.mem_union, List.mem_cons]
    constructor
    · rintro ((h | h) | ⟨u, hu, hiu⟩)
      · exact Or.inl h
      · exact Or.inr ⟨t, Or.inl rfl, h⟩
      · exact Or.inr ⟨u, Or.inr hu, hiu⟩
    · rintro (h | ⟨u, (rfl | hu), hiu⟩)
      · exact Or.inl (Or.inl h)
      · exact Or.inl (Or.inr hiu)
      · exact Or.inr ⟨u, hu, hiu⟩

lemma mem_specSelect (N : ℤ) (toks : List SelTok) (i : ℤ) :
    i ∈ specSelect N toks ↔ ∃ t ∈ toks, i ∈ tokSet N t := by
  unfold specSelect
  rw [mem_specSelect_aux]
  simp

lemma mem_tokSet_bounds (N : ℤ) (t : SelTok) (i : ℤ) (h : i ∈ tokSet N t) :
    i ≤ N ∧ (1 ≤ tokLB t → 1 ≤ i) := by
  cases t with
  | single n =>
    revert h
    show i ∈ (if 1 ≤ n ∧ n ≤ N then ({n} : Finset ℤ) else ∅) → _
    by_cases hn : 1 ≤ n ∧ n ≤ N
    · rw [if_pos hn]; intro h; rw [Finset.mem_singleton] at h; subst h
      exact ⟨hn.2, fun _ => hn.1⟩
    · rw [if_neg hn]; intro h; cases h
  | rng a b =>
    rw [show tokSet N (SelTok.rng a b) = Finset.Icc a (min b N) from rfl,
      Finset.mem_Icc] at h
    refine ⟨by omega, fun hlb => ?_⟩
    rw [show tokLB (SelTok.rng a b) = a from rfl] at hlb
    omega

/-- The loop of `parse_selection` computes the insertion sort of an
accumulator whose underlying set is the declarative `specSelect` union. -/
lemma parseSelAux_ok (N : ℤ) :
    ∀ (ps : List (List Char)) (toks : List SelTok) (acc : List ℤ),
      tokensOfParts ps = some toks →
      parseSelAux N ps acc =
        Except.ok (List.insertionSort (· ≤ ·) (toks.foldl (applyTok N) acc)) := by
  intro ps
  induction ps with
  | nil =>
    intro toks acc h
    simp only [tokensOfParts, Option.some.injEq] at h
    subst h
    rfl
  | cons p ps ih =>
    intro toks acc h
    simp only [tokensOfParts] at h
    cases htok : tokenize p with
    | none => rw [htok] at h; simp at h
    | some t =>
      rw [htok] at h
      cases hts : tokensOfParts ps with
      | none => rw [hts] at h; simp at h
      | some ts =>
        rw [hts] at h
        simp only [Option.some.injEq] at h
        subst h
        show parseSelAux N (p :: ps) acc = _
        unfold parseSelAux
        rw [htok]
        exact ih ts (applyTok N acc t) hts

lemma foldl_applyTok_toFinset (N : ℤ) :
    ∀ (toks : List SelTok) (acc : List ℤ),
      (toks.foldl (applyTok N) acc).toFinset =
        toks.foldl (fun s t => s ∪ tokSet N t) acc.toFinset := by
  intro toks
  induction toks with
  | nil => intro acc; rfl
  | cons t ts ih =>
    intro acc
    show (ts.foldl (applyTok N) (applyTok N acc t)).toFinset = _
    rw [ih, applyTok_toFinset]
    rfl

lemma foldl_applyTok_nodup (N : ℤ) :
    ∀ (toks : List SelTok) (acc : List ℤ), acc.Nodup →
      (toks.foldl (applyTok N) acc).Nodup := by
  intro toks
  induction toks with
  | nil => intro acc h; exact h
  | cons t ts ih => intro acc h; exact ih _ (applyTok_nodup N acc t h)

/-! ### Rounding (Python `round(x, 2)`) -/

/-- Round-half-to-even on the rationals (Python's rounding mode). -/
def roundHalfEven (q : ℚ) : ℤ :=
  let f := ⌊q⌋
  let r := q - f
  if r < 1 / 2 then f
  else if 1 / 2 < r then f + 1
  else if Even f then f else f + 1

/-- Python `round(x, 2)` modelled on exact rationals. -/
def pyRound2 (q : ℚ) : ℚ := ((roundHalfEven (100 * q) : ℤ) : ℚ) / 100

/-! ### Timestamps -/

/-- A timezone-local timestamp: calendar day number and second-of-day.
`SQLite DATE(ts)` is the `day` component; ordering timestamps as text
(ISO format in one fixed timezone) is the lexicographic order on
`(day, sec)`. -/
structure Ts where
  day : ℤ
  sec : ℤ
deriving DecidableEq

/-- The instant of a timestamp in seconds (for durations). -/
def Ts.toSeconds (t : Ts) : ℤ := 86400 * t.day + t.sec

/-! ### Data model (`database.py` tables as row lists) -/

/-- A row of `calendar_events`: surrogate `AUTOINCREMENT` id, unique
external `event_id`, title, description, start/end timestamps, derived
`duration_hours`, and the nullable owning cycle reference. -/
structure EventRow where
  id : ℤ
  event_id : String
  title : String
  descr : String
  start : Ts
  stop : Ts
  duration_hours : ℚ
  cycle_id : Option ℤ
deriving DecidableEq

/-- A row of `invoice_cycles` (client columns not bearing on any claim
are omitted; dates are day numbers, see `Ts`). -/
structure CycleRow where
  id : ℤ
  name : String
  start_date : ℤ
  end_date : ℤ
  hourly_rate : Option ℚ
deriving DecidableEq

/-- A row of `invoices`. -/
structure InvoiceRow where
  id : ℤ
  cycle_id : ℤ
  invoice_number : String
  invoice_date : ℤ
  due_date : ℤ
  total_hours : ℚ
  hourly_rate : ℚ
  total_amount : ℚ
  pdf_path : Option String
deriving DecidableEq

/-- The persistent state: the three tables of interest, the autoincrement
counters backing their surrogate keys, and the set of artifact files on
disk (paths are unique, as in a filesystem). -/
structure DB where
  cycles : List CycleRow
  events : List EventRow
  invoices : List InvoiceRow
  nextEventId : ℤ
  nextInvoiceId : ℤ
  files : List String
deriving DecidableEq

def emptyDB : DB := ⟨[], [], [], 1, 1, []⟩

/-! ### Calendar ingestion (`calendar_client.CalendarClient.fetch_events`) -/

/-- A raw Google Calendar API event item.  `startDT = none` models an
all-day event (no `dateTime` component on its start). -/
structure GEvent where
  id : String
  summary : String
  descr : String
  startDT : Option Ts
  stopDT : Ts
  attendees : List String
deriving DecidableEq

/-- A processed event dictionary as built by `fetch_events`. -/
structure FetchedEvent where
  id : String
  summary : String
  descr : String
  start : Ts
  stop : Ts
  duration_hours : ℚ
  attendees : List String
deriving DecidableEq

/-- The per-event body of the `fetch_events` loop: skip all-day events;
otherwise compute `duration_hours = round((end - start) in hours, 2)`. -/
def processEvent (e : GEvent) : Option FetchedEvent :=
  match e.startDT with
  | none => none
  | some st =>
    some { id := e.id, summary := e.summary, descr := e.descr,
           start := st, stop := e.stopDT,
           duration_hours := pyRound2 (((e.stopDT.toSeconds - st.toSeconds : ℤ) : ℚ) / 3600),
           attendees := e.attendees }

/-- `CalendarClient.fetch_events` post-processing of the API result list. -/
def fetch_events (items : List GEvent) : List FetchedEvent :=
  items.filterMap processEvent

/-! ### Event store operations (`database.CalendarEvent`) -/

/-- One `INSERT OR REPLACE` of `bulk_insert`: any existing row with the
same external key is deleted, and a fresh row (new autoincrement id) is
inserted with the given cycle link. -/
def insertOne (cyc : Option ℤ) (db : DB) (e : FetchedEvent) : DB :=
  { db with
    events := db.events.filter (fun r => decide (r.event_id ≠ e.id)) ++
      [{ id := db.nextEventId, event_id := e.id, title := e.summary,
         descr := e.descr, start := e.start, stop := e.stop,
         duration_hours := e.duration_hours, cycle_id := cyc }],
    nextEventId := db.nextEventId + 1 }

/-- `CalendarEvent.bulk_insert(events, cycle_id)`. -/
def bulk_insert (events : List FetchedEvent) (cycle_id : Option ℤ) (db : DB) : DB :=
  events.foldl (insertOne cycle_id) db

/-- Ordering of events by start time (SQL `ORDER BY start_time` on ISO
text in one fixed timezone). -/
def startLe (a b : EventRow) : Prop :=
  a.start.day < b.start.day ∨ (a.start.day = b.start.day ∧ a.start.sec ≤ b.start.sec)

instance : DecidableRel startLe := fun a b => by unfold startLe; infer_instance

instance : IsTotal EventRow startLe := by
  constructor
  intro a b
  unfold startLe
  rcases lt_trichotomy a.start.day b.start.day with h | h | h
  · exact Or.inl (Or.inl h)
  · rcases le_total a.start.sec b.start.sec with hs | hs
    · exact Or.inl (Or.inr ⟨h, hs⟩)
    · exact Or.inr (Or.inr ⟨h.symm, hs⟩)
  · exact Or.inr (Or.inl h)

instance : IsTrans EventRow startLe := by
  constructor
  intro a b c hab hbc
  unfold startLe at *
  rcases hab with h1 | ⟨h1, h1s⟩ <;> rcases hbc with h2 | ⟨h2, h2s⟩
  · exact Or.inl (h1.trans h2)
  · exact Or.inl (h2 ▸ h1)
  · exact Or.inl (h1 ▸ h2)
  · exact Or.inr ⟨h1.trans h2, h1s.trans h2s⟩

/-- `CalendarEvent.get_unassigned(start_date, end_date)`: unassigned
events whose start date is on/after `s` and end date on/before `e`
(date-only comparison), ordered by start time. -/
def get_unassigned (db : DB) (s e : ℤ) : List EventRow :=
  List.insertionSort startLe
    (db.events.filter (fun ev =>
      decide (ev.cycle_id = none ∧ s ≤ ev.start.day ∧ ev.stop.day ≤ e)))

/-- `CalendarEvent.assign_to_cycle(event_ids, cycle_id)`: the generated
SQL is `UPDATE calendar_events SET cycle_id = ? WHERE id IN (?, ...)`;
SQLite also accepts the empty `IN ()` list, so the statement always
executes and updates exactly the rows whose id is listed (zero rows for
an empty id list). -/
def assign_to_cycle (event_ids : List ℤ) (cycle_id : ℤ) (db : DB) : DB :=
  { db with
    events := db.events.map (fun ev =>
      if ev.id ∈ event_ids then { ev with cycle_id := some cycle_id } else ev) }

/-- `CalendarEvent.get_by_cycle(cycle_id)`. -/
def get_by_cycle (cycle_id : ℤ) (db : DB) : List EventRow :=
  List.insertionSort startLe
    (db.events.filter (fun ev => decide (ev.cycle_id = some cycle_id)))

/-- When any comma-separated part fails to tokenize, the parse raises. -/
lemma parseSelAux_error (N : ℤ) :
    ∀ (ps : List (List Char)) (acc : List ℤ),
      (∃ p ∈ ps, tokenize p = none) → parseFailed (parseSelAux N ps acc) = true := by
  intro ps
  induction ps with
  | nil => intro acc h; simp at h
  | cons p ps ih =>
    intro acc h
    show parseFailed (parseSelAux N (p :: ps) acc) = true
    unfold parseSelAux
    cases htok : tokenize p with
    | none => rfl
    | some t =>
      rcases h with ⟨q, hq, hqn⟩
      rcases List.mem_cons.mp hq with rfl | hq
      · rw [htok] at hqn; cases hqn
      · exact ih (applyTok N acc t) ⟨q, hq, hqn⟩

/-! ### Invoice numbering (`database.Invoice.get_next_invoice_number`) -/

/-- SQLite `CAST(s AS INTEGER)` on text: skip leading whitespace, then
take the value of the longest (optionally signed) decimal-digit run at
the front; `0` when there are no digits.  (Int64 saturation is outside
the model; every number arising here is tiny.) -/
def sqliteCastInt (cs : List Char) : ℤ :=
  let t := cs.dropWhile isSpaceC
  let val : List Char → ℤ := fun ds =>
    ((ds.takeWhile isDigitC).foldl (fun n c => 10 * n + (c.toNat - 48)) (0 : ℕ) : ℕ)
  match t with
  | [] => 0
  | c :: rest =>
    if c = '-' then -(val rest) else if c = '+' then val rest else val t

/-- Decimal digit characters of a natural number (by fuel). -/
def natDigitCharsAux : ℕ → ℕ → List Char
  | 0, _ => []
  | fuel + 1, n =>
    if n < 10 then [Char.ofNat (48 + n)]
    else natDigitCharsAux fuel (n / 10) ++ [Char.ofNat (48 + n % 10)]

/-- Decimal digit characters of a natural number. -/
def natDigitChars (n : ℕ) : List Char := natDigitCharsAux (n + 1) n

/-- Left-pad a digit list with zeros to width `w`. -/
def padZeros (w : ℕ) (ds : List Char) : List Char :=
  List.replicate (w - ds.length) '0' ++ ds

/-- Python `f-string` formatting with `:03d`: minimum total width 3
including the sign, zero-padded. -/
def format03d (n : ℤ) : String :=
  if n < 0 then String.mk ('-' :: padZeros 2 (natDigitChars n.natAbs))
  else String.mk (padZeros 3 (natDigitChars n.toNat))

/-- SQL `LIKE concat(hash, percent)`: the text starts with a hash sign. -/
def startsHash (s : String) : Bool :=
  match s.toList with
  | c :: _ => decide (c = '#')
  | [] => false

/-- `Invoice.get_next_invoice_number()`, as a function of the stored
invoice numbers: `MAX(CAST(SUBSTR(invoice_number, 2) AS INTEGER))` over
rows whose number starts with a hash (`NULL`, i.e. no such row, and a
Python-falsy `0` both yield 0), plus one, formatted with a hash and
`:03d`. -/
def get_next_invoice_number (invoice_numbers : List String) : String :=
  let nums := (invoice_numbers.filter startsHash).map
    (fun s => sqliteCastInt (s.toList.drop 1))
  let max_num := (nums.max?).getD 0
  "#" ++ format03d (max_num + 1)

/-- Modelled from the spec (for refinement): the value of an invoice
number matching the strict three-digit pattern of the spec's words
(a hash followed by exactly three decimal digits), else `none`. -/
def nnnValue (s : String) : Option ℤ :=
  match s.toList with
  | [h0, a, b, c] =>
    if h0 = '#' ∧ isDigitC a ∧ isDigitC b ∧ isDigitC c then
      some (((100 * (a.toNat - 48) + 10 * (b.toNat - 48) + (c.toNat - 48) : ℕ) : ℤ))
    else none
  | _ => none

/-- Modelled from the spec (for refinement): the next invoice number as
the claim states it — one more than the maximum numeric suffix among
numbers matching the three-digit pattern, 0 when none exist, formatted
as a hash plus zero-padded decimal. -/
def claimNextNumber (invoice_numbers : List String) : String :=
  "#" ++ format03d (((invoice_numbers.filterMap nnnValue).max?).getD 0 + 1)

/-! ### Invoice store (`database.Invoice`) -/

/-- `Invoice.get_by_number(invoice_number)`: the query joins `invoices`
with `invoice_cycles`, so a row is visible only when its cycle exists. -/
def get_by_number (db : DB) (num : String) : Option InvoiceRow :=
  (db.invoices.filter (fun i => db.cycles.any (fun c => decide (c.id = i.cycle_id)))).find?
    (fun i => decide (i.invoice_number = num))

/-- `Invoice.delete(invoice_number)`: look the invoice up (returning
`false` and changing nothing when the lookup fails), unlink its PDF file
when the stored path exists on disk, delete the row(s) with that number,
and report `cursor.rowcount > 0`. -/
def Invoice_delete (db : DB) (num : String) : DB × Bool :=
  match get_by_number db num with
  | none => (db, false)
  | some inv =>
    let files' := match inv.pdf_path with
      | some p => db.files.filter (fun q => decide (q ≠ p))
      | none => db.files
    let remaining := db.invoices.filter (fun i => decide (i.invoice_number ≠ num))
    ({ db with invoices := remaining, files := files' },
     decide (remaining.length < db.invoices.length))

/-! ### The assign command (`main.assign_events`, main.py lines 148-192) -/

/-- Python list indexing `events[i]` (negative indices address from the
end; out of range raises, here `none`). -/
def pyIndex {α : Type} (l : List α) (i : ℤ) : Option α :=
  if 0 ≤ i ∧ i < l.length then l.get? i.toNat
  else if -(l.length : ℤ) ≤ i ∧ i < 0 then l.get? (l.length + i).toNat
  else none

/-- The selection step of the `assign` command: the literal `"all"`
(lowercased) short-circuits to every listed event's id; otherwise the
selection string is parsed and each index `i` is mapped to
`events[i - 1]['id']`. -/
def selectEventIds (selection : String) (events : List EventRow) : Except String (List ℤ) :=
  if selection.toList.map Char.toLower = ['a', 'l', 'l'] then
    Except.ok (events.map (fun e => e.id))
  else
    match parse_selection selection (events.length : ℤ) with
    | Except.error msg => Except.error msg
    | Except.ok idxs =>
      match idxs.mapM (fun i => (pyIndex events (i - 1)).map (fun e => e.id)) with
      | none => Except.error "IndexError: list index out of range"
      | some ids => Except.ok ids

/-- The final step of the `assign` command: assign only when the selected
id list is nonempty, otherwise print a notice and change nothing. -/
def cliAssignStep (selected_ids : List ℤ) (cycle_id : ℤ) (db : DB) : DB :=
  if selected_ids = [] then db
  else assign_to_cycle selected_ids cycle_id db

/-! ### The generate command (`main.generate` plus the numeric core of
`pdf_generator.generate_invoice_pdf`) -/

/-- Decimal string of an integer (stands for a formatted date in the
generated artifact filename). -/
def intToStr (n : ℤ) : String :=
  if n < 0 then "-" ++ String.mk (natDigitChars n.natAbs)
  else String.mk (natDigitChars n.toNat)

/-- The artifact filename built by `generate_invoice_pdf`:
`invoice-` + the number stripped of hash signs + `-` + the date + `.pdf`. -/
def pdfPathOf (num : String) (d : ℤ) : String :=
  "invoice-" ++ String.mk (num.toList.filter (fun c => decide (c ≠ '#'))) ++
    "-" ++ intToStr d ++ ".pdf"

/-- Python `sum(...)` over rationals (left fold from 0). -/
def pySum (l : List ℚ) : ℚ := l.foldl (· + ·) 0

/-- Python truthiness of an optional rate (`None` and `0.0` are falsy). -/
def truthyRate (o : Option ℚ) : Bool :=
  match o with
  | some x => decide (x ≠ 0)
  | none => false

/-- `InvoiceCycle.update_rate(cycle_id, hourly_rate)`. -/
def update_rate (cycle_id : ℤ) (r : ℚ) (db : DB) : DB :=
  { db with cycles := db.cycles.map (fun c =>
      if c.id = cycle_id then { c with hourly_rate := some r } else c) }

/-- The numeric and persistence core of
`pdf_generator.generate_invoice_pdf`: allocate the next invoice number,
resolve invoice and due dates, total the stored durations (no
re-rounding), price them, write the artifact, and persist the record. -/
def generate_invoice_pdf (db : DB) (cycle : CycleRow) (events : List EventRow)
    (hourly_rate : ℚ) (invoice_date : Option ℤ) (today : ℤ) (due_days : ℤ) :
    DB × InvoiceRow :=
  let invoice_number := get_next_invoice_number (db.invoices.map (fun i => i.invoice_number))
  let inv_date := invoice_date.getD today
  let due_date := inv_date + due_days
  let total_hours := pySum (events.map (fun e => e.duration_hours))
  let total_amount := total_hours * hourly_rate
  let pdf_path := pdfPathOf invoice_number inv_date
  let row : InvoiceRow :=
    { id := db.nextInvoiceId, cycle_id := cycle.id, invoice_number := invoice_number,
      invoice_date := inv_date, due_date := due_date, total_hours := total_hours,
      hourly_rate := hourly_rate, total_amount := total_amount,
      pdf_path := some pdf_path }
  ({ db with files := db.files ++ [pdf_path],
             invoices := db.invoices ++ [row],
             nextInvoiceId := db.nextInvoiceId + 1 }, row)

/-- Outcome of the `generate` command. -/
inductive GenResult where
  | cycleNotFound : GenResult
  | noEvents : GenResult
  | ok : InvoiceRow → GenResult
deriving DecidableEq

/-- Arguments of the `generate` command.  `promptRate` is the value the
interactive rate prompt would return when neither the option nor the
cycle carries a truthy rate. -/
structure GenArgs where
  cycleId : ℤ
  rate : Option ℚ
  promptRate : ℚ
  invoiceDate : Option ℤ
  dueDays : ℤ
  today : ℤ

/-- Whether `hourly_rate = rate or cycle['hourly_rate']` is truthy, i.e.
whether the rate prompt (and the `update_rate` back-fill) is skipped. -/
def rateIsSet (a : GenArgs) (cyc : CycleRow) : Bool :=
  truthyRate (if truthyRate a.rate then a.rate else cyc.hourly_rate)

/-- The hourly rate the generate command ends up using: the `--rate`
option when truthy, else the cycle's stored rate when truthy, else the
prompted value. -/
def resolvedRate (a : GenArgs) (cyc : CycleRow) : ℚ :=
  if truthyRate a.rate then (a.rate).getD 0
  else if truthyRate cyc.hourly_rate then (cyc.hourly_rate).getD 0
  else a.promptRate

/-- The tail of `main.generate` once the cycle and rate are resolved:
abort with a validation error when the cycle has no assigned events
(before allocating a number, persisting a record, or writing a file);
otherwise run the compile/persist core. -/
def generateWithRate (db1 : DB) (a : GenArgs) (cyc : CycleRow) (rate : ℚ) : DB × GenResult :=
  if get_by_cycle a.cycleId db1 = [] then (db1, GenResult.noEvents)
  else
    ((generate_invoice_pdf db1 cyc (get_by_cycle a.cycleId db1) rate
        a.invoiceDate a.today a.dueDays).1,
     GenResult.ok (generate_invoice_pdf db1 cyc (get_by_cycle a.cycleId db1) rate
        a.invoiceDate a.today a.dueDays).2)

/-- `main.generate`: look up the cycle (aborting when missing), resolve
the hourly rate Python-style (`rate or cycle['hourly_rate']`, prompting
and back-filling the cycle rate when that is falsy), then continue with
`generateWithRate`.  (The interactive profile prompts touch only
`user_profile`, outside this model.) -/
def generateCmd (db : DB) (a : GenArgs) : DB × GenResult :=
  match db.cycles.find? (fun c => decide (c.id = a.cycleId)) with
  | none => (db, GenResult.cycleNotFound)
  | some cyc =>
    generateWithRate
      (if rateIsSet a cyc then db else update_rate a.cycleId a.promptRate db)
      a cyc (resolvedRate a cyc)

/-- Observer: the totals of a successful generation. -/
def totalsOf : DB × GenResult → Option (ℚ × ℚ)
  | (_, GenResult.ok r) => some (r.total_hours, r.total_amount)
  | _ => none

/-! ### Claim C1 -/

/-- C1 (amended): for every selection string whose comma-separated parts
all tokenize (single indices or ranges) and every candidate count N,
`parse_selection` returns the strictly sorted list of distinct indices
whose underlying set is exactly the union of the tokens' contributions:
singles are kept only inside [1, N], a range's upper bound is clamped to
N, an empty sub-range contributes nothing, and duplicates collapse.
Every returned index is at most N, and when every range token's lower
bound is at least 1, every returned index lies in [1, N] (lower bounds
are not clamped, so a range starting at 0 escapes the interval — see the
counterexample).  `"1,3,5-8"` with N=10 yields [1,3,5,6,7,8], `"1,1,2"`
yields [1,2], and the literal `"all"` in the assign command selects
every candidate. -/
theorem parse_selection_contract :
    (∀ (s : String) (N : ℤ) (toks : List SelTok), tokensOf s = some toks →
      ∃ l, okList (parse_selection s N) = some l
        ∧ List.Sorted (· < ·) l
        ∧ l.toFinset = specSelect N toks
        ∧ (∀ i ∈ l, i ≤ N)
        ∧ ((∀ t ∈ toks, 1 ≤ tokLB t) → ∀ i ∈ l, 1 ≤ i ∧ i ≤ N))
    ∧ okList (parse_selection "1,3,5-8" 10) = some [1, 3, 5, 6, 7, 8]
    ∧ okList (parse_selection "1,1,2" 10) = some [1, 2]
    ∧ (∀ events : List EventRow,
        selectEventIds "all" events = Except.ok (events.map (fun e => e.id))) := by
  refine ⟨?_, by decide, by decide, fun events => rfl⟩
  intro s N toks h
  have hp := parseSelAux_ok N (splitOnChar ',' s.toList) toks [] h
  refine ⟨List.insertionSort (· ≤ ·) (toks.foldl (applyTok N) []), ?_, ?_, ?_, ?_, ?_⟩
  case _ =>
    show okList (parseSelAux N (splitOnChar ',' s.toList) []) = _
    rw [hp]
    rfl
  case _ =>
    exact (List.sorted_insertionSort (· ≤ ·) _).lt_of_le
      ((List.perm_insertionSort (· ≤ ·) _).nodup_iff.mpr
        (foldl_applyTok_nodup N toks [] List.nodup_nil))
  case _ =>
    have htf : (List.insertionSort (· ≤ ·) (toks.foldl (applyTok N) [])).toFinset =
        (toks.foldl (applyTok N) []).toFinset := by
      ext i
      simp only [List.mem_toFinset]
      exact (List.perm_insertionSort (· ≤ ·) _).mem_iff
    rw [htf, foldl_applyTok_toFinset]
    rfl
  case _ =>
    intro i hi
    have hi2 : i ∈ specSelect N toks := by
      have hm : i ∈ (toks.foldl (applyTok N) []).toFinset :=
        List.mem_toFinset.mpr ((List.perm_insertionSort (· ≤ ·) _).mem_iff.mp hi)
      rw [foldl_applyTok_toFinset] at hm
      simpa [specSelect] using hm
    rcases (mem_specSelect N toks i).mp hi2 with ⟨t, _, hit⟩
    exact (mem_tokSet_bounds N t i hit).1
  case _ =>
    intro hlb i hi
    have hi2 : i ∈ specSelect N toks := by
      have hm : i ∈ (toks.foldl (applyTok N) []).toFinset :=
        List.mem_toFinset.mpr ((List.perm_insertionSort (· ≤ ·) _).mem_iff.mp hi)
      rw [foldl_applyTok_toFinset] at hm
      simpa [specSelect] using hm
    rcases (mem_specSelect N toks i).mp hi2 with ⟨t, ht, hit⟩
    exact ⟨(mem_tokSet_bounds N t i hit).2 (hlb t ht), (mem_tokSet_bounds N t i hit).1⟩

/-- C1 counterexample: the range token `0-2` with two candidates is
parsed into [0, 1, 2], so the returned index 0 lies outside [1, N] —
range lower bounds are not clamped to 1 as the claim requires. -/
theorem parse_selection_cex :
    okList (parse_selection "0-2" 2) = some [0, 1, 2] ∧
      ¬ (∀ i ∈ [(0 : ℤ), 1, 2], 1 ≤ i ∧ i ≤ 2) := by decide

/-- Witness for C1: applying the contract to `"2-5,1"` with 4 candidates
(all range lower bounds at least 1) gives [1, 2, 3, 4], all in [1, 4]. -/
theorem parse_selection_contract_witness :
    okList (parse_selection "2-5,1" 4) = some [1, 2, 3, 4] ∧
      (∀ i ∈ [(1 : ℤ), 2, 3, 4], 1 ≤ i ∧ i ≤ 4) := by
  obtain ⟨l, h1, h2, h3, h4, h5⟩ :=
    parse_selection_contract.1 "2-5,1" 4 [SelTok.rng 2 5, SelTok.single 1] (by decide)
  have he : okList (parse_selection "2-5,1" 4) = some [1, 2, 3, 4] := by decide
  have hl : l = [1, 2, 3, 4] := Option.some.inj (h1.symm.trans he)
  have h6 := h5 (by decide)
  rw [hl] at h6
  exact ⟨he, h6⟩

/-! ### Claim C8 -/

/-- The only error the selection parse loop can raise is the tokenization
error. -/
lemma parseSelAux_error_msg (N : ℤ) :
    ∀ (ps : List (List Char)) (acc : List ℤ) (msg : String),
      parseSelAux N ps acc = Except.error msg →
      msg = "ValueError: invalid selection token" := by
  intro ps
  induction ps with
  | nil => intro acc msg h; exact Except.noConfusion h
  | cons p ps ih =>
    intro acc msg h
    revert h
    show parseSelAux N (p :: ps) acc = _ → _
    unfold parseSelAux
    cases tokenize p with
    | none => intro h; injection h with h1; exact h1.symm
    | some t => exact fun h => ih (applyTok N acc t) msg h

/-- C8: for every selection string containing a malformed part (one that
does not tokenize: non-numeric text, a bad range, or the empty token that
an empty input produces) and every candidate count, `parse_selection`
raises — it never silently returns a result — and the error is a
distinct, independently catchable value: the assign command's selection
step surfaces exactly that error (before any state change), so a caller
can match on it and re-prompt. -/
theorem parse_selection_error_surfaced :
    ∀ (s : String) (N : ℤ),
      (∃ p ∈ splitOnChar ',' s.toList, tokenize p = none) →
      parseFailed (parse_selection s N) = true
      ∧ okList (parse_selection s N) = none
      ∧ (∀ events : List EventRow, s.toList.map Char.toLower ≠ ['a', 'l', 'l'] →
          selectEventIds s events =
            Except.error "ValueError: invalid selection token") := by
  intro s N h
  have h1 : ∀ M : ℤ, parseFailed (parse_selection s M) = true := fun M =>
    parseSelAux_error M (splitOnChar ',' s.toList) [] h
  refine ⟨h1 N, ?_, ?_⟩
  · cases he : parse_selection s N with
    | ok l => have := h1 N; rw [he] at this; cases this
    | error msg => rfl
  · intro events hne
    unfold selectEventIds
    rw [if_neg hne]
    cases he : parse_selection s (events.length : ℤ) with
    | ok l => have := h1 (events.length : ℤ); rw [he] at this; cases this
    | error msg =>
      have hmsg : msg = "ValueError: invalid selection token" :=
        parseSelAux_error_msg (events.length : ℤ) (splitOnChar ',' s.toList) [] msg he
      subst hmsg
      rfl

/-- Witness for C8: the selection string `"a,b"` is malformed; the parse
raises and the assign command's selection step surfaces the same error. -/
theorem parse_selection_error_surfaced_witness :
    parseFailed (parse_selection "a,b" 5) = true
    ∧ okList (parse_selection "a,b" 5) = none
    ∧ selectEventIds "a,b" [] = Except.error "ValueError: invalid selection token" := by
  have h := parse_selection_error_surfaced "a,b" 5 ⟨['a'], by decide, by decide⟩
  exact ⟨h.1, h.2.1, h.2.2 [] (by decide)⟩

/-! ### Claim C10 -/

/-- C10 (amended): calling `assign_to_cycle` with an empty set of event
identifiers IS a silent no-op — SQLite accepts the empty `IN ()` list,
the `UPDATE` matches zero rows, and the call returns normally with the
store unchanged; more generally every row whose id is outside the given
set is left in place untouched.  The interactive assign command
additionally skips the call entirely (printing a notice) when no events
are selected. -/
theorem assign_to_cycle_empty_ids :
    (∀ (c : ℤ) (db : DB), assign_to_cycle [] c db = db)
    ∧ (∀ (c : ℤ) (db : DB), cliAssignStep [] c db = db)
    ∧ (∀ (ids : List ℤ) (c : ℤ) (db : DB) (ev : EventRow),
        ev ∈ db.events → ev.id ∉ ids → ev ∈ (assign_to_cycle ids c db).events) := by
  refine ⟨?_, fun c db => rfl, ?_⟩
  · intro c db
    show { db with events := db.events.map (fun ev =>
        if ev.id ∈ ([] : List ℤ) then { ev with cycle_id := some c } else ev) } = db
    simp
  · intro ids c db ev hmem hnotin
    show ev ∈ db.events.map (fun e =>
      if e.id ∈ ids then { e with cycle_id := some c } else e)
    rw [List.mem_map]
    exact ⟨ev, hmem, by rw [if_neg hnotin]⟩

def c10db : DB :=
  ⟨[], [⟨1, "k9", "Planning", "", ⟨20, 0⟩, ⟨20, 3600⟩, 1, none⟩], [], 2, 1, []⟩

/-- C10 counterexample: on a concrete store holding an event, assigning
an empty id set raises nothing and changes nothing — the call is exactly
the silent no-op the claim denies. -/
theorem assign_to_cycle_empty_ids_cex :
    assign_to_cycle [] 7 c10db = c10db := rfl

/-- Witness for C10: the CLI step with an empty selection leaves the
store unchanged, and an event whose id is outside the assigned set is
still stored untouched after an assignment. -/
theorem assign_to_cycle_empty_ids_witness :
    cliAssignStep [] 7 c10db = c10db
    ∧ (⟨1, "k9", "Planning", "", ⟨20, 0⟩, ⟨20, 3600⟩, 1, none⟩ : EventRow) ∈
        (assign_to_cycle [9] 7 c10db).events :=
  ⟨assign_to_cycle_empty_ids.2.1 7 c10db,
   assign_to_cycle_empty_ids.2.2 [9] 7 c10db _ (List.mem_cons_self _ _) (by decide)⟩

/-! ### Claim C5 -/

/-- C5: `get_unassigned` returns exactly (a permutation of) the stored
events with no owning cycle whose start date is on/after the range start
and whose end date is on/before the range end (date-only comparison),
sorted by start time ascending; `get_by_cycle` returns exactly the events
bound to the cycle, sorted by start time ascending; and after assigning
events `e1, e2` to a cycle, no event returned by `get_unassigned` over
any range carries either id. -/
theorem assignment_engine_contract :
    (∀ (db : DB) (s e : ℤ),
      (get_unassigned db s e).Perm
        (db.events.filter (fun ev =>
          decide (ev.cycle_id = none ∧ s ≤ ev.start.day ∧ ev.stop.day ≤ e)))
      ∧ (get_unassigned db s e).Sorted startLe)
    ∧ (∀ (db : DB) (c : ℤ),
      (get_by_cycle c db).Perm
        (db.events.filter (fun ev => decide (ev.cycle_id = some c)))
      ∧ (get_by_cycle c db).Sorted startLe)
    ∧ (∀ (db db' : DB) (c e1 e2 : ℤ),
      assign_to_cycle [e1, e2] c db = db' →
      ∀ (s e : ℤ), ∀ ev ∈ get_unassigned db' s e, ev.id ≠ e1 ∧ ev.id ≠ e2) := by
  refine ⟨?_, ?_, ?_⟩
  · intro db s e
    exact ⟨List.perm_insertionSort startLe _, List.sorted_insertionSort startLe _⟩
  · intro db c
    exact ⟨List.perm_insertionSort startLe _, List.sorted_insertionSort startLe _⟩
  · intro db db' c e1 e2 hassign s e ev hev
    subst hassign
    have hev2 := (List.perm_insertionSort startLe _).mem_iff.mp hev
    rw [List.mem_filter] at hev2
    obtain ⟨hmem, hpred⟩ := hev2
    obtain ⟨hcyc, -, -⟩ := of_decide_eq_true hpred
    have hmem2 : ev ∈ db.events.map (fun e =>
        if e.id ∈ ([e1, e2] : List ℤ) then { e with cycle_id := some c } else e) := hmem
    rw [List.mem_map] at hmem2
    obtain ⟨orig, -, horig⟩ := hmem2
    by_cases hid : orig.id ∈ [e1, e2]
    · rw [if_pos hid] at horig
      rw [← horig] at hcyc
      exact absurd hcyc (by simp)
    · rw [if_neg hid] at horig
      subst horig
      simp only [List.mem_cons, List.mem_singleton] at hid
      push_neg at hid
      exact ⟨hid.1, hid.2.1⟩

def c5db : DB :=
  ⟨[], [⟨1, "k1", "Sync", "", ⟨10, 0⟩, ⟨10, 3600⟩, 1, none⟩,
        ⟨2, "k2", "Review", "", ⟨11, 0⟩, ⟨11, 3600⟩, 1, none⟩], [], 3, 1, []⟩

def c5dbA : DB :=
  ⟨[], [⟨1, "k1", "Sync", "", ⟨10, 0⟩, ⟨10, 3600⟩, 1, some 7⟩,
        ⟨2, "k2", "Review", "", ⟨11, 0⟩, ⟨11, 3600⟩, 1, some 7⟩], [], 3, 1, []⟩

/-- Witness for C5: on a concrete store, the unassigned listing is a
sorted permutation of the filtered events, and after assigning events 1
and 2 to cycle 7 neither id is listed as unassigned over a covering
range. -/
theorem assignment_engine_contract_witness :
    (get_unassigned c5db 0 100).Perm
      (c5db.events.filter (fun ev =>
        decide (ev.cycle_id = none ∧ 0 ≤ ev.start.day ∧ ev.stop.day ≤ 100)))
    ∧ (get_by_cycle 7 c5dbA).Sorted startLe
    ∧ (get_unassigned c5dbA 0 100).all
        (fun ev => decide (ev.id ≠ 1 ∧ ev.id ≠ 2)) = true := by
  refine ⟨(assignment_engine_contract.1 c5db 0 100).1,
    (assignment_engine_contract.2.1 c5dbA 7).2, ?_⟩
  rw [List.all_eq_true]
  intro ev hev
  exact decide_eq_true
    (assignment_engine_contract.2.2 c5db c5dbA 7 1 2 rfl 0 100 ev hev)

/-! ### Claim C2 -/

lemma isDigitC_not_space (c : Char) (h : isDigitC c = true) : isSpaceC c = false := by
  unfold isDigitC at h
  unfold isSpaceC
  rw [decide_eq_true_iff] at h
  rw [decide_eq_false_iff_not]
  omega

lemma isDigitC_ne_minus (c : Char) (h : isDigitC c = true) : c ≠ '-' := by
  intro hc
  subst hc
  revert h
  decide

lemma isDigitC_ne_plus (c : Char) (h : isDigitC c = true) : c ≠ '+' := by
  intro hc
  subst hc
  revert h
  decide

/-- On a strict three-digit invoice number, the SQLite cast used by the
code computes exactly the value the spec describes. -/
lemma nnnValue_cast (s : String) (v : ℤ) (h : nnnValue s = some v) :
    startsHash s = true ∧ sqliteCastInt (s.toList.drop 1) = v := by
  unfold nnnValue at h
  unfold startsHash
  rcases hs : s.toList with - | ⟨c0, - | ⟨c1, - | ⟨c2, - | ⟨c3, - | ⟨c4, l⟩⟩⟩⟩⟩ <;>
    rw [hs] at h
  · exact Option.noConfusion h
  · exact Option.noConfusion h
  · exact Option.noConfusion h
  · exact Option.noConfusion h
  · have h' : (if c0 = '#' ∧ isDigitC c1 = true ∧ isDigitC c2 = true ∧ isDigitC c3 = true then
        some (((100 * (c1.toNat - 48) + 10 * (c2.toNat - 48) + (c3.toNat - 48) : ℕ) : ℤ))
      else none) = some v := h
    by_cases hc : c0 = '#' ∧ isDigitC c1 = true ∧ isDigitC c2 = true ∧ isDigitC c3 = true
    swap
    · rw [if_neg hc] at h'
      exact absurd h' (by simp)
    rw [if_pos hc] at h'
    replace h := h'
    obtain ⟨hc0, hd1, hd2, hd3⟩ := hc
    constructor
    · rw [hc0]
      rfl
    · have hv : v = ((100 * (c1.toNat - 48) + 10 * (c2.toNat - 48) + (c3.toNat - 48) : ℕ) : ℤ) :=
        (Option.some.inj h).symm
      subst hv
      show sqliteCastInt [c1, c2, c3] = _
      unfold sqliteCastInt
      rw [List.dropWhile_cons, isDigitC_not_space c1 hd1]
      simp only [Bool.false_eq_true, if_false]
      rw [if_neg (isDigitC_ne_minus c1 hd1), if_neg (isDigitC_ne_plus c1 hd1)]
      rw [List.takeWhile_cons, hd1, List.takeWhile_cons, hd2, List.takeWhile_cons, hd3]
      have h1 := decide_eq_true_iff.mp hd1
      have h2 := decide_eq_true_iff.mp hd2
      have h3 := decide_eq_true_iff.mp hd3
      show (((10 * (10 * (10 * 0 + (c1.toNat - 48)) + (c2.toNat - 48)) + (c3.toNat - 48) : ℕ)) : ℤ) = _
      congr 1
      omega
  · exact Option.noConfusion h

/-- On stores whose numbers all match the strict pattern, the number
lists used by code and spec coincide. -/
lemma strict_nums_eq (nums : List String) (h : ∀ s ∈ nums, (nnnValue s).isSome) :
    (nums.filter startsHash).map (fun s => sqliteCastInt (s.toList.drop 1)) =
      nums.filterMap nnnValue := by
  induction nums with
  | nil => rfl
  | cons s rest ih =>
    have hs := h s (List.mem_cons_self s rest)
    obtain ⟨v, hv⟩ := Option.isSome_iff_exists.mp hs
    obtain ⟨h1, h2⟩ := nnnValue_cast s v hv
    rw [List.filter_cons, List.filterMap_cons, h1, hv]
    simp only [if_true]
    rw [List.map_cons, h2, ih (fun t ht => h t (List.mem_cons_of_mem s ht))]

/-- C2 (amended): `get_next_invoice_number` considers every stored
invoice number beginning with a hash and takes the SQLite integer cast of
its suffix (the value of its longest leading digit run, 0 when none),
then returns a hash followed by the zero-padded (minimum width 3) decimal
of the maximum plus one, with 0 standing in when no number qualifies.
When every stored number matches the spec's strict three-digit pattern
this is exactly the claimed behaviour: the first number ever allocated is
`#001`, and with `#001`, `#002`, `#004` stored (a deletion gap) the next
is `#005` — gaps are not refilled. -/
theorem next_invoice_number_spec :
    (∀ nums : List String, (∀ s ∈ nums, (nnnValue s).isSome) →
      get_next_invoice_number nums = claimNextNumber nums)
    ∧ get_next_invoice_number [] = "#001"
    ∧ get_next_invoice_number ["#001", "#002", "#004"] = "#005" := by
  refine ⟨?_, by decide, by decide⟩
  intro nums h
  unfold get_next_invoice_number claimNextNumber
  rw [strict_nums_eq nums h]

/-- C2 counterexample: with the single stored number `#12abc` the code
returns `#013` (SQLite casts the suffix's digit run `12`), while the
claim's computation — ignore numbers not matching `#NNN`, so none exist —
yields `#001`. -/
theorem next_invoice_number_cex :
    get_next_invoice_number ["#12abc"] = "#013"
    ∧ claimNextNumber ["#12abc"] = "#001"
    ∧ ("#013" : String) ≠ "#001" := by decide

/-- Witness for C2: on the strict store `["#003"]` the code agrees with
the claimed computation. -/
theorem next_invoice_number_spec_witness :
    get_next_invoice_number ["#003"] = claimNextNumber ["#003"] :=
  next_invoice_number_spec.1 ["#003"] (by decide)

/-! ### Claim C4 -/

lemma get_by_cycle_update_rate (c cid : ℤ) (r : ℚ) (db : DB) :
    get_by_cycle c (update_rate cid r db) = get_by_cycle c db := rfl

/-- C4: generating an invoice for a cycle that exists but has no bound
events fails with the validation error (`noEvents`) before any of the
listed side effects: the invoice table, the artifact files and the
invoice surrogate counter are unchanged, and in particular the next
invoice number that would be allocated is unchanged.  (The only earlier
write the command can make is the documented rate back-fill, which
touches none of these.) -/
theorem generate_empty_events_no_side_effects :
    ∀ (db : DB) (a : GenArgs),
      (db.cycles.find? (fun c => decide (c.id = a.cycleId))).isSome = true →
      get_by_cycle a.cycleId db = [] →
      (generateCmd db a).2 = GenResult.noEvents
      ∧ (generateCmd db a).1.invoices = db.invoices
      ∧ (generateCmd db a).1.files = db.files
      ∧ (generateCmd db a).1.nextInvoiceId = db.nextInvoiceId
      ∧ get_next_invoice_number
            ((generateCmd db a).1.invoices.map (fun i => i.invoice_number))
          = get_next_invoice_number (db.invoices.map (fun i => i.invoice_number)) := by
  intro db a hc he
  obtain ⟨cyc, hcyc⟩ := Option.isSome_iff_exists.mp hc
  have hg : generateCmd db a =
      generateWithRate (if rateIsSet a cyc then db else update_rate a.cycleId a.promptRate db)
        a cyc (resolvedRate a cyc) := by
    unfold generateCmd
    rw [hcyc]
  rw [hg]
  by_cases hrs : rateIsSet a cyc = true
  · rw [if_pos hrs]
    unfold generateWithRate
    rw [if_pos he]
    exact ⟨rfl, rfl, rfl, rfl, rfl⟩
  · rw [if_neg hrs]
    unfold generateWithRate
    rw [get_by_cycle_update_rate, if_pos he]
    exact ⟨rfl, rfl, rfl, rfl, rfl⟩

def c4db : DB := ⟨[⟨1, "March", 0, 30, some 100⟩], [], [], 1, 1, []⟩

def c4args : GenArgs := ⟨1, none, 0, none, 30, 19000⟩

/-- Witness for C4: a store with one cycle (rate set) and no events. -/
theorem generate_empty_events_no_side_effects_witness :
    (generateCmd c4db c4args).2 = GenResult.noEvents
    ∧ (generateCmd c4db c4args).1.invoices = c4db.invoices
    ∧ (generateCmd c4db c4args).1.files = c4db.files
    ∧ (generateCmd c4db c4args).1.nextInvoiceId = c4db.nextInvoiceId
    ∧ get_next_invoice_number
          ((generateCmd c4db c4args).1.invoices.map (fun i => i.invoice_number))
        = get_next_invoice_number (c4db.invoices.map (fun i => i.invoice_number)) :=
  generate_empty_events_no_side_effects c4db c4args (by decide) rfl

/-! ### Claim C3 -/

lemma pySum_eq_sum (l : List ℚ) : pySum l = l.sum := List.sum_eq_foldl.symm

/-- C3: on every successful generation with a (truthy) explicit rate, the
persisted record's total hours are the exact sum of the bound events'
stored duration fields — no re-rounding — its total amount is exactly
total hours times the rate, and the record lands in the invoice table;
and on the claim's concrete inputs, durations [2.5, 1.25] at rate 1000
total 3.75 hours and 3750 exactly. -/
theorem invoice_totals_exact :
    (∀ (db : DB) (a : GenArgs) (r : ℚ) (row : InvoiceRow),
      a.rate = some r → r ≠ 0 →
      (generateCmd db a).2 = GenResult.ok row →
      row.total_hours = ((get_by_cycle a.cycleId db).map (fun e => e.duration_hours)).sum
      ∧ row.total_amount = row.total_hours * r
      ∧ row ∈ (generateCmd db a).1.invoices)
    ∧ pySum [5/2, 5/4] = 15/4
    ∧ pySum [5/2, 5/4] * 1000 = 3750 := by
  refine ⟨?_, by norm_num [pySum], by norm_num [pySum]⟩
  intro db a r row hr hrne hok
  have htr : truthyRate a.rate = true := by
    rw [hr]
    exact decide_eq_true hrne
  have hrs : ∀ cyc : CycleRow, rateIsSet a cyc = true := by
    intro cyc
    unfold rateIsSet
    rw [if_pos htr]
    exact htr
  have hrr : ∀ cyc : CycleRow, resolvedRate a cyc = r := by
    intro cyc
    unfold resolvedRate
    rw [if_pos htr, hr]
    rfl
  cases hcyc : db.cycles.find? (fun c => decide (c.id = a.cycleId)) with
  | none =>
    have hg : generateCmd db a = (db, GenResult.cycleNotFound) := by
      unfold generateCmd
      rw [hcyc]
    rw [hg] at hok
    exact absurd hok (by simp)
  | some cyc =>
    have hg : generateCmd db a =
        generateWithRate (if rateIsSet a cyc then db else update_rate a.cycleId a.promptRate db)
          a cyc (resolvedRate a cyc) := by
      unfold generateCmd
      rw [hcyc]
    rw [hg, if_pos (hrs cyc), hrr cyc] at hok
    rw [hg, if_pos (hrs cyc), hrr cyc]
    unfold generateWithRate at hok
    unfold generateWithRate
    by_cases he : get_by_cycle a.cycleId db = []
    · rw [if_pos he] at hok
      exact absurd hok (by simp)
    · rw [if_neg he] at hok
      rw [if_neg he]
      have hok2 : GenResult.ok (generate_invoice_pdf db cyc (get_by_cycle a.cycleId db) r
          a.invoiceDate a.today a.dueDays).2 = GenResult.ok row := hok
      have hrow : (generate_invoice_pdf db cyc (get_by_cycle a.cycleId db) r
          a.invoiceDate a.today a.dueDays).2 = row := by
        injection hok2
      refine ⟨?_, ?_, ?_⟩
      · rw [← hrow]
        show pySum ((get_by_cycle a.cycleId db).map (fun e => e.duration_hours)) = _
        exact pySum_eq_sum _
      · rw [← hrow]
        rfl
      · show row ∈ (generate_invoice_pdf db cyc (get_by_cycle a.cycleId db) r
          a.invoiceDate a.today a.dueDays).1.invoices
        rw [← hrow]
        show _ ∈ db.invoices ++ [(generate_invoice_pdf db cyc (get_by_cycle a.cycleId db) r
          a.invoiceDate a.today a.dueDays).2]
        exact List.mem_append_right _ (List.mem_singleton.mpr rfl)

def c3cyc : CycleRow := ⟨1, "Oct", 0, 30, none⟩

def c3db : DB :=
  ⟨[c3cyc],
   [⟨1, "k1", "Design", "", ⟨5, 0⟩, ⟨5, 9000⟩, 5/2, some 1⟩,
    ⟨2, "k2", "Build", "", ⟨6, 0⟩, ⟨6, 4500⟩, 5/4, some 1⟩], [], 3, 1, []⟩

def c3args : GenArgs := ⟨1, some 1000, 0, some 19000, 30, 19000⟩

def c3row : InvoiceRow :=
  (generate_invoice_pdf c3db c3cyc (get_by_cycle 1 c3db) 1000 (some 19000) 19000 30).2

/-- Witness for C3: generating on a concrete store with durations
[5/2, 5/4] at rate 1000 produces a record whose totals satisfy the
contract. -/
theorem invoice_totals_exact_witness :
    c3row.total_hours = ((get_by_cycle 1 c3db).map (fun e => e.duration_hours)).sum
    ∧ c3row.total_amount = c3row.total_hours * 1000 := by
  have hrsv : truthyRate (some (1000 : ℚ)) = true := by
    unfold truthyRate
    norm_num
  have hg : generateCmd c3db c3args =
      generateWithRate (if rateIsSet c3args c3cyc then c3db
        else update_rate 1 0 c3db) c3args c3cyc (resolvedRate c3args c3cyc) := rfl
  have hrs : rateIsSet c3args c3cyc = true := by
    unfold rateIsSet
    rw [show c3args.rate = some (1000 : ℚ) from rfl, if_pos hrsv]
    exact hrsv
  have hrr : resolvedRate c3args c3cyc = 1000 := by
    unfold resolvedRate
    rw [show c3args.rate = some (1000 : ℚ) from rfl, if_pos hrsv]
    rfl
  have hne : ¬(get_by_cycle c3args.cycleId c3db = []) := by decide
  have hok : (generateCmd c3db c3args).2 = GenResult.ok c3row := by
    rw [hg, if_pos hrs, hrr]
    unfold generateWithRate
    rw [if_neg hne]
    rfl
  have h := invoice_totals_exact.1 c3db c3args 1000 c3row rfl (by norm_num) hok
  exact ⟨h.1, h.2.1⟩

/-! ### Claim C6 -/

/-- C6 (amended): every event admitted by ingestion is stored with
`duration_hours` equal to `round((end - start) in hours, 2)` computed
from its own stored timestamps — both directly on the fetched list and
after `bulk_insert` into the store — but the invariant `end > start` is
NOT enforced: the ingestion code never compares the timestamps, so a
malformed pair is stored as-is (see the counterexample). -/
theorem ingestion_duration_rounding :
    (∀ (items : List GEvent) (fe : FetchedEvent), fe ∈ fetch_events items →
      fe.duration_hours = pyRound2 (((fe.stop.toSeconds - fe.start.toSeconds : ℤ) : ℚ) / 3600))
    ∧ (∀ (db : DB) (items : List GEvent) (row : EventRow),
      row ∈ (bulk_insert (fetch_events items) none db).events →
      row ∈ db.events ∨
        row.duration_hours =
          pyRound2 (((row.stop.toSeconds - row.start.toSeconds : ℤ) : ℚ) / 3600)) := by
  have hfe : ∀ (items : List GEvent) (fe : FetchedEvent), fe ∈ fetch_events items →
      fe.duration_hours = pyRound2 (((fe.stop.toSeconds - fe.start.toSeconds : ℤ) : ℚ) / 3600) := by
    intro items fe hm
    rw [fetch_events, List.mem_filterMap] at hm
    obtain ⟨g, -, hg⟩ := hm
    unfold processEvent at hg
    cases hst : g.startDT with
    | none => rw [hst] at hg; exact Option.noConfusion hg
    | some st =>
      rw [hst] at hg
      have he := Option.some.inj hg
      rw [← he]
  refine ⟨hfe, ?_⟩
  intro db items row hrow
  have key : ∀ (es : List FetchedEvent) (db0 : DB) (r : EventRow),
      r ∈ (bulk_insert es none db0).events →
      r ∈ db0.events ∨ ∃ e ∈ es,
        r.duration_hours = e.duration_hours ∧ r.start = e.start ∧ r.stop = e.stop := by
    intro es
    induction es with
    | nil => intro db0 r h; exact Or.inl h
    | cons e es ih =>
      intro db0 r h
      rcases ih (insertOne none db0 e) r h with hin | ⟨e', he', rest⟩
      · rcases List.mem_append.mp hin with hold | hnew
        · exact Or.inl (List.mem_filter.mp hold).1
        · right
          refine ⟨e, List.mem_cons_self e es, ?_⟩
          have hr := List.mem_singleton.mp hnew
          rw [hr]
          exact ⟨rfl, rfl, rfl⟩
      · exact Or.inr ⟨e', List.mem_cons_of_mem e he', rest⟩
  rcases key (fetch_events items) db row hrow with hin | ⟨e, he, hd, hs, hp⟩
  · exact Or.inl hin
  · right
    rw [hd, hs, hp]
    exact hfe items e he

def c6bad : GEvent := ⟨"e0", "Standup", "", some ⟨20000, 3600⟩, ⟨20000, 3600⟩, []⟩

/-- C6 counterexample: an event whose end instant equals its start
instant (not strictly after) is admitted by `fetch_events` and stored by
`bulk_insert` with both timestamps unchanged — neither rejected nor
clamped — with duration 0. -/
theorem ingestion_no_end_after_start_check :
    (fetch_events [c6bad]).map (fun fe => (fe.start, fe.stop)) =
      [((⟨20000, 3600⟩ : Ts), (⟨20000, 3600⟩ : Ts))]
    ∧ ¬ ((⟨20000, 3600⟩ : Ts).toSeconds < (⟨20000, 3600⟩ : Ts).toSeconds)
    ∧ (bulk_insert (fetch_events [c6bad]) none emptyDB).events.map
        (fun r => (r.event_id, r.start, r.stop)) =
      [("e0", (⟨20000, 3600⟩ : Ts), (⟨20000, 3600⟩ : Ts))]
    ∧ (fetch_events [c6bad]).map (fun fe => fe.duration_hours) = [0] := by
  refine ⟨by decide, by decide, by decide, ?_⟩
  show [pyRound2 ((((⟨20000, 3600⟩ : Ts).toSeconds - (⟨20000, 3600⟩ : Ts).toSeconds : ℤ) : ℚ) / 3600)] = [0]
  norm_num [pyRound2, roundHalfEven]

def c6good : GEvent := ⟨"e1", "Call", "", some ⟨20000, 0⟩, ⟨20000, 5400⟩, []⟩

def c6feW : FetchedEvent :=
  ⟨"e1", "Call", "", ⟨20000, 0⟩, ⟨20000, 5400⟩,
   pyRound2 ((((⟨20000, 5400⟩ : Ts).toSeconds - (⟨20000, 0⟩ : Ts).toSeconds : ℤ) : ℚ) / 3600), []⟩

/-- Witness for C6: a concrete 90-minute event is stored with the claimed
rounded duration. -/
theorem ingestion_duration_rounding_witness :
    c6feW.duration_hours =
      pyRound2 (((c6feW.stop.toSeconds - c6feW.start.toSeconds : ℤ) : ℚ) / 3600) := by
  have hm : fetch_events [c6good] = [c6feW] := rfl
  exact ingestion_duration_rounding.1 [c6good] c6feW
    (by rw [hm]; exact List.mem_cons_self _ _)

/-! ### Claim C7 -/

/-- C7 (amended): re-ingesting an event with a given external key leaves
exactly one stored row under that key, whose content fields (title,
description, timestamps, duration) are exactly the ingested ones — so
re-ingesting identical fields reproduces the same stored content — but
with two deviations from the claim: the cycle link is always written
null (the documented reset), AND the `INSERT OR REPLACE` deletes the old
row and inserts a fresh one, so the surrogate autoincrement id changes:
the new id is the current counter value, distinct from every id already
in the store. -/
theorem reingest_resets_cycle_link (db : DB) (e : FetchedEvent)
    (hid : ∀ r ∈ db.events, r.id < db.nextEventId) :
    (bulk_insert [e] none db).events.filter (fun x => decide (x.event_id = e.id)) =
      [{ id := db.nextEventId, event_id := e.id, title := e.summary, descr := e.descr,
         start := e.start, stop := e.stop, duration_hours := e.duration_hours,
         cycle_id := none }]
    ∧ (∀ rOld ∈ db.events, rOld.id ≠ db.nextEventId) := by
  constructor
  · show (db.events.filter (fun r : EventRow => decide (r.event_id ≠ e.id)) ++
        [({ id := db.nextEventId, event_id := e.id, title := e.summary, descr := e.descr,
            start := e.start, stop := e.stop, duration_hours := e.duration_hours,
            cycle_id := none } : EventRow)]).filter
          (fun x : EventRow => decide (x.event_id = e.id)) = _
    rw [List.filter_append]
    have h1 : (db.events.filter (fun r => decide (r.event_id ≠ e.id))).filter
        (fun x => decide (x.event_id = e.id)) = [] := by
      rw [List.filter_filter, List.filter_eq_nil_iff]
      intro r _
      by_cases hr : r.event_id = e.id
      · simp [hr]
      · simp [hr]
    rw [h1]
    simp
  · intro rOld hr
    exact ne_of_lt (hid rOld hr)

def c7fe : FetchedEvent := ⟨"g1", "Sync", "", ⟨100, 0⟩, ⟨100, 3600⟩, 1, []⟩

def c7db1 : DB := bulk_insert [c7fe] none emptyDB

def c7db2 : DB := assign_to_cycle [1] 5 c7db1

def c7db3 : DB := bulk_insert [c7fe] none c7db2

def c7r2 : EventRow := ⟨1, "g1", "Sync", "", ⟨100, 0⟩, ⟨100, 3600⟩, 1, some 5⟩

def c7r3 : EventRow := ⟨2, "g1", "Sync", "", ⟨100, 0⟩, ⟨100, 3600⟩, 1, none⟩

/-- C7 counterexample: ingest an event, assign it to cycle 5, then
re-ingest the identical event.  The stored row afterwards has the same
content fields with a null cycle link, but it is NOT the same stored row
excluding the cycle link: its surrogate primary-key id changed from 1 to
2 under the delete-and-insert replace. -/
theorem reingest_changes_surrogate_id :
    c7db2.events = [c7r2]
    ∧ c7db3.events = [c7r3]
    ∧ c7r3.cycle_id = none
    ∧ c7r3.event_id = c7r2.event_id ∧ c7r3.title = c7r2.title
    ∧ c7r3.descr = c7r2.descr ∧ c7r3.start = c7r2.start ∧ c7r3.stop = c7r2.stop
    ∧ c7r3.duration_hours = c7r2.duration_hours
    ∧ c7r3.id ≠ c7r2.id
    ∧ c7r3 ≠ { c7r2 with cycle_id := none } := by
  refine ⟨rfl, rfl, rfl, rfl, rfl, rfl, rfl, rfl, rfl, by decide, ?_⟩
  intro h
  exact absurd (congrArg EventRow.id h) (by decide)

def c7wdb : DB := ⟨[], [c7r2], [], 2, 1, []⟩

/-- Witness for C7: re-ingesting the identical event into a store holding
its assigned copy (id 1, counter at 2) leaves exactly the fresh row with
id 2 and a null cycle link. -/
theorem reingest_resets_cycle_link_witness :
    (bulk_insert [c7fe] none c7wdb).events.filter
        (fun x => decide (x.event_id = c7fe.id)) =
      [{ id := 2, event_id := "g1", title := "Sync", descr := "",
         start := ⟨100, 0⟩, stop := ⟨100, 3600⟩, duration_hours := 1,
         cycle_id := none }] :=
  (reingest_resets_cycle_link c7wdb c7fe (by decide)).1

/-! ### Claim C9 -/

lemma length_filter_lt {α : Type} (p : α → Bool) (l : List α) (x : α)
    (hx : x ∈ l) (hpx : p x = false) : (l.filter p).length < l.length := by
  induction l with
  | nil => cases hx
  | cons a l ih =>
    rw [List.filter_cons]
    rcases List.mem_cons.mp hx with rfl | hx2
    · rw [hpx]
      exact Nat.lt_succ_of_le (List.length_filter_le p l)
    · by_cases hpa : p a = true
      · rw [hpa]
        simpa using ih hx2
      · rw [Bool.not_eq_true] at hpa
        rw [hpa]
        exact Nat.lt_succ_of_lt (ih hx2)

/-- C9: deleting an invoice by a number whose lookup succeeds removes the
database record — every remaining invoice row carries a different number,
so a subsequent lookup by that number returns nothing (NotFound) — and
removes the artifact file at its stored path from disk, returning
success; deleting a number whose lookup fails returns failure and
changes nothing at all. -/
theorem invoice_delete_contract :
    (∀ (db : DB) (num : String) (inv : InvoiceRow),
      get_by_number db num = some inv →
      (Invoice_delete db num).2 = true
      ∧ get_by_number (Invoice_delete db num).1 num = none
      ∧ (∀ i ∈ (Invoice_delete db num).1.invoices, i.invoice_number ≠ num)
      ∧ (∀ p, inv.pdf_path = some p → p ∉ (Invoice_delete db num).1.files))
    ∧ (∀ (db : DB) (num : String),
      get_by_number db num = none → Invoice_delete db num = (db, false)) := by
  constructor
  · intro db num inv h
    have hfind : (db.invoices.filter
        (fun i => db.cycles.any (fun c => decide (c.id = i.cycle_id)))).find?
        (fun i => decide (i.invoice_number = num)) = some inv := h
    have hmem : inv ∈ db.invoices := by
      have h2 := List.mem_of_find?_eq_some hfind
      exact (List.mem_filter.mp h2).1
    have hp := List.find?_some hfind
    have hnum : inv.invoice_number = num := of_decide_eq_true hp
    have hdel : Invoice_delete db num =
        ({ db with
            invoices := db.invoices.filter (fun i => decide (i.invoice_number ≠ num)),
            files := match inv.pdf_path with
              | some p => db.files.filter (fun q => decide (q ≠ p))
              | none => db.files },
         decide ((db.invoices.filter (fun i => decide (i.invoice_number ≠ num))).length <
            db.invoices.length)) := by
      unfold Invoice_delete
      rw [h]
    rw [hdel]
    refine ⟨?_, ?_, ?_, ?_⟩
    · apply decide_eq_true
      apply length_filter_lt _ _ inv hmem
      rw [decide_eq_false_iff_not]
      intro hcon
      exact hcon hnum
    · unfold get_by_number
      rw [List.find?_eq_none]
      intro i hi
      have hi2 : i ∈ db.invoices.filter (fun i => decide (i.invoice_number ≠ num)) :=
        (List.mem_filter.mp hi).1
      have hne := of_decide_eq_true (List.mem_filter.mp hi2).2
      rw [decide_eq_true_iff]
      exact hne
    · intro i hi
      exact of_decide_eq_true (List.mem_filter.mp hi).2
    · intro p hp
      rw [hp]
      intro hmemf
      have := of_decide_eq_true (List.mem_filter.mp hmemf).2
      exact this rfl
  · intro db num h
    unfold Invoice_delete
    rw [h]

def c9inv : InvoiceRow := ⟨1, 1, "#001", 19000, 19030, 10, 100, 1000, some "invoice-001.pdf"⟩

def c9db : DB := ⟨[⟨1, "March", 0, 30, none⟩], [], [c9inv], 1, 2, ["invoice-001.pdf"]⟩

/-- Witness for C9: on a concrete store, deleting `#001` succeeds, the
lookup afterwards finds nothing, the artifact path is gone from disk, and
deleting a number that does not exist returns failure and leaves the
store untouched. -/
theorem invoice_delete_contract_witness :
    (Invoice_delete c9db "#001").2 = true
    ∧ get_by_number (Invoice_delete c9db "#001").1 "#001" = none
    ∧ "invoice-001.pdf" ∉ (Invoice_delete c9db "#001").1.files
    ∧ Invoice_delete c9db "#077" = (c9db, false) := by
  have h := invoice_delete_contract.1 c9db "#001" c9inv rfl
  exact ⟨h.1, h.2.1, h.2.2.2 "invoice-001.pdf" rfl,
    invoice_delete_contract.2 c9db "#077" rfl⟩
